import Mathlib

/-
Verification of the transfer price-correction and gold-reconciliation engine
(pos_frontend/transfers/weekly_with_prices.py and
pos_frontend/transfers/gold_investigation.py), as a shallow embedding.

Modelling conventions:
- pandas cells are modelled with exact Lean types: money/quantities as ℚ,
  nullable numerics as Option ℚ (none = NaN after pd.to_numeric coercion),
  free text as String.
- A DataFrame is a List of typed records.  The left join against a loaded
  price table is modelled faithfully, with one output row per matching
  price row (apply_prices_table); the row-local claims use the per-line
  collapse apply_prices / findPrecio, proved equal to the join whenever the
  normalized keys of the loaded table are pairwise distinct
  (apply_prices_table_eq_map).
- Python str.strip / str.lower / str.upper are the ASCII helpers sTrim /
  sLower / sUpper below (all inputs relevant to the claims are ASCII).
- pandas Series.str.contains with a literal pattern is substring containment.
-/

namespace PosTransfers

/-- Whitespace test matching Python str.strip / regex \s on the ASCII range. -/
def isSpaceChar (c : Char) : Bool :=
  c == ' ' || c == '\t' || c == '\n' || c == '\r'

/-- ASCII uppercase conversion of one character.  Every origin-warehouse,
unit and sheet-name value touched by the claims is ASCII, where this agrees
with Python str.upper. -/
def charUpper (c : Char) : Char :=
  match c with
  | 'a' => 'A' | 'b' => 'B' | 'c' => 'C' | 'd' => 'D' | 'e' => 'E'
  | 'f' => 'F' | 'g' => 'G' | 'h' => 'H' | 'i' => 'I' | 'j' => 'J'
  | 'k' => 'K' | 'l' => 'L' | 'm' => 'M' | 'n' => 'N' | 'o' => 'O'
  | 'p' => 'P' | 'q' => 'Q' | 'r' => 'R' | 's' => 'S' | 't' => 'T'
  | 'u' => 'U' | 'v' => 'V' | 'w' => 'W' | 'x' => 'X' | 'y' => 'Y'
  | 'z' => 'Z' | other => other

/-- ASCII lowercase conversion of one character (agrees with Python
str.lower on the ASCII data of the claims). -/
def charLower (c : Char) : Char :=
  match c with
  | 'A' => 'a' | 'B' => 'b' | 'C' => 'c' | 'D' => 'd' | 'E' => 'e'
  | 'F' => 'f' | 'G' => 'g' | 'H' => 'h' | 'I' => 'i' | 'J' => 'j'
  | 'K' => 'k' | 'L' => 'l' | 'M' => 'm' | 'N' => 'n' | 'O' => 'o'
  | 'P' => 'p' | 'Q' => 'q' | 'R' => 'r' | 'S' => 's' | 'T' => 't'
  | 'U' => 'u' | 'V' => 'v' | 'W' => 'w' | 'X' => 'x' | 'Y' => 'y'
  | 'Z' => 'z' | other => other

/-- Python str.strip(): drop leading and trailing whitespace. -/
def sTrim (s : String) : String :=
  String.mk (((s.data.dropWhile isSpaceChar).reverse.dropWhile isSpaceChar).reverse)

/-- Python str.upper(). -/
def sUpper (s : String) : String := String.mk (s.data.map charUpper)

/-- Python str.lower(). -/
def sLower (s : String) : String := String.mk (s.data.map charLower)

/-- Python len() of a string. -/
def sLength (s : String) : Nat := s.data.length

/-- Helper for splitDash: split the remaining characters at each dash,
acc holding the current token reversed. -/
def splitDashAux : List Char → List Char → List String
  | [], acc => [String.mk acc.reverse]
  | c :: rest, acc =>
    if c == '-' then String.mk acc.reverse :: splitDashAux rest []
    else splitDashAux rest (c :: acc)

/-- Python str.split("-"). -/
def splitDash (s : String) : List String := splitDashAux s.data []

/-- Substring containment: needle occurs contiguously in hay.  Models the
pandas str.contains calls (their patterns contain no regex metacharacters)
and the Python `in` operator on str. -/
def strContains (hay needle : String) : Bool :=
  hay.data.tails.any (fun t => needle.data.isPrefixOf t)

/-- Model of the regex replacement `\s*\*$` → `" *"` used by
normalize_producto_for_match: a trailing asterisk, together with any
whitespace just before it, is rewritten to `" *"`. -/
def canonicalizeAsterisk (s : String) : String :=
  match s.data.reverse with
  | '*' :: rest => String.mk (((rest.dropWhile Char.isWhitespace).reverse) ++ [' ', '*'])
  | _ => s

/-- normalize_producto_for_match (weekly_with_prices.py:137): strip,
lowercase, canonical trailing-asterisk spacing. -/
def normalize_producto_for_match (s : String) : String :=
  canonicalizeAsterisk (sLower (sTrim s))

/-- PRODUCTO_ALIASES (weekly_with_prices.py:30): typo variant → canonical,
lowercase. -/
def PRODUCTO_ALIASES : List (String × String) :=
  [("mayones de panem *", "mayonesa de panem *"),
   ("sopa de tomate*", "sopa de tomate *")]

/-- Python `PRODUCTO_ALIASES.get(x, x)`. -/
def aliasGet (x : String) : String :=
  match PRODUCTO_ALIASES.find? (fun p => p.1 == x) with
  | some p => p.2
  | none => x

/-- One row of a loaded price table (Producto, Precio unitario), with the
Producto already stripped by the loader and the price coerced to numeric
(none = NaN). -/
structure PrecioEntry where
  producto : String
  precioUnitario : Option ℚ
deriving DecidableEq, Repr

/-- One transfer line (a row of the concatenated transfer CSVs).  The fields
Costo_before / Costo_after exist as columns only after apply_prices has run;
on a raw row their values do not matter (apply_prices overwrites both). -/
structure TLine where
  orden : String := ""
  almacenOrigen : String := ""
  sucursalDestino : String := ""
  producto : String := ""
  cantidad : ℚ := 0
  costo : ℚ := 0
  costoUnitario : ℚ := 0
  week : String := ""
  costoBefore : ℚ := 0
  costoAfter : ℚ := 0
deriving DecidableEq, Repr

/-- The uppercased, stripped origin-warehouse text (column _Almacen_origen,
weekly_with_prices.py:169). -/
def normOrigin (l : TLine) : String := sUpper (sTrim l.almacenOrigen)

/-- The merge key _Producto_lookup (weekly_with_prices.py:164-168): the
normalized product name, sent through the alias table unconditionally. -/
def lookupKey (l : TLine) : String :=
  aliasGet (normalize_producto_for_match l.producto)

/-- Price of the FIRST row of a loaded price table whose normalized
Producto equals the join key.  A row whose price is NaN yields none,
exactly like a merged _Precio column holding NaN.  This is the one-match
collapse of the left join; the general join, which fans a line out into one
row per matching price row, is leftJoinPrices below, and the two coincide
exactly when the normalized keys of the table are pairwise distinct
(leftJoinPrices_eq_singleton). -/
def findPrecio (table : List PrecioEntry) (key : String) : Option ℚ :=
  match table.find? (fun e => normalize_producto_for_match e.producto == key) with
  | some e => e.precioUnitario
  | none => none

/-- The _Precio values a left merge (weekly_with_prices.py:174-180) attaches
to one line: one value per price row whose normalized Producto equals the
join key, in table order, or a single NaN when no row matches. -/
def leftJoinPrices (table : List PrecioEntry) (key : String) : List (Option ℚ) :=
  let ms := table.filter (fun e => normalize_producto_for_match e.producto == key)
  if ms.isEmpty then [none] else ms.map (fun e => e.precioUnitario)

/-- The merged _Precio_PT value for a line. -/
def ptPrice (pt : List PrecioEntry) (l : TLine) : Option ℚ :=
  findPrecio pt (lookupKey l)

/-- The merged _Precio_AG value for a line.  Mirrors the guard
`ag_precios is not None and not ag_precios.empty` (weekly_with_prices.py:184):
an absent or empty AG table leaves _Precio_AG = NaN. -/
def agPrice (ag : Option (List PrecioEntry)) (l : TLine) : Option ℚ :=
  match ag with
  | none => none
  | some table => if table.isEmpty then none else findPrecio table (lookupKey l)

/-- pt_matched (weekly_with_prices.py:203-204): origin contains
"PRODUCTO TERMINADO" and the merged PT price is not NaN. -/
def pt_matched (pt : List PrecioEntry) (l : TLine) : Bool :=
  strContains (normOrigin l) "PRODUCTO TERMINADO" && (ptPrice pt l).isSome

/-- ag_matched (weekly_with_prices.py:208-209): origin contains
"ALMACEN GENERAL" and the merged AG price is not NaN. -/
def ag_matched (ag : Option (List PrecioEntry)) (l : TLine) : Bool :=
  strContains (normOrigin l) "ALMACEN GENERAL" && (agPrice ag l).isSome

/-- Per-line semantics of apply_prices (weekly_with_prices.py:145-223):
snapshot Costo_before := Costo; overwrite Costo unitario with the PT price
on pt_matched rows, then with the AG price on ag_matched rows (the second
assignment wins when both apply); recompute Costo := Cantidad * Costo
unitario for every row; snapshot Costo_after := Costo. -/
def applyPricesLine (pt : List PrecioEntry) (ag : Option (List PrecioEntry))
    (l : TLine) : TLine :=
  let u1 := if pt_matched pt l then (ptPrice pt l).getD l.costoUnitario else l.costoUnitario
  let u2 := if ag_matched ag l then (agPrice ag l).getD u1 else u1
  { l with
    costoUnitario := u2
    costo := l.cantidad * u2
    costoBefore := l.costo
    costoAfter := l.cantidad * u2 }

/-- apply_prices over a whole transfer table, one output row per input line
(the updated frame is also returned as the report frame, so one list models
both results).  This per-line form is the merge collapse used by the
row-local claims; the faithful table-level semantics with join fan-out is
apply_prices_table below, and the two coincide exactly when the normalized
keys of each price table are pairwise distinct (apply_prices_table_eq_map). -/
def apply_prices (df : List TLine) (pt : List PrecioEntry)
    (ag : Option (List PrecioEntry)) : List TLine :=
  df.map (applyPricesLine pt ag)

/-- The _Precio_AG values the optional second merge attaches to one line:
the guard of weekly_with_prices.py:184 leaves a single NaN when the AG
table is absent or empty, else it joins like the PT merge. -/
def agJoinPrices (ag : Option (List PrecioEntry)) (key : String) : List (Option ℚ) :=
  match ag with
  | none => [none]
  | some table => if table.isEmpty then [none] else leftJoinPrices table key

/-- One output row of apply_prices from one merged row (a line together
with its joined _Precio_PT and _Precio_AG values): the same sequential
assignments as applyPricesLine, with the prices taken from the merged
columns. -/
def applyMergedRow (l : TLine) (ptp agp : Option ℚ) : TLine :=
  let u1 := if strContains (normOrigin l) "PRODUCTO TERMINADO" && ptp.isSome
    then ptp.getD l.costoUnitario else l.costoUnitario
  let u2 := if strContains (normOrigin l) "ALMACEN GENERAL" && agp.isSome
    then agp.getD u1 else u1
  { l with
    costoUnitario := u2
    costo := l.cantidad * u2
    costoBefore := l.costo
    costoAfter := l.cantidad * u2 }

/-- apply_prices with the faithful left-join semantics of the two merges
(weekly_with_prices.py:174-196): each input line becomes one output row per
combination of matching PT row and matching AG row (left rows are kept with
NaN prices when nothing matches), in left-then-table order.  When the
normalized keys of each loaded table are pairwise distinct this is exactly
one row per line and agrees with apply_prices. -/
def apply_prices_table (df : List TLine) (pt : List PrecioEntry)
    (ag : Option (List PrecioEntry)) : List TLine :=
  (df.map (fun l =>
    ((leftJoinPrices pt (lookupKey l)).map (fun ptp =>
      (agJoinPrices ag (lookupKey l)).map (fun agp =>
        applyMergedRow l ptp agp))).flatten)).flatten

/-- drop_duplicates(keep="first") on a key: keep a row iff its key was not
seen earlier.  seen accumulates the keys of kept rows. -/
def dropDupAux {α β : Type} [DecidableEq β] (key : α → β) :
    List β → List α → List α
  | _, [] => []
  | seen, a :: l =>
    if key a ∈ seen then dropDupAux key seen l
    else a :: dropDupAux key (key a :: seen) l

/-- pandas drop_duplicates(subset=[key], keep="first"). -/
def drop_duplicates_by {α β : Type} [DecidableEq β] (key : α → β)
    (l : List α) : List α :=
  dropDupAux key [] l

/-- pandas Series.unique(): distinct values in first-occurrence order. -/
def uniqueFirst (l : List String) : List String :=
  drop_duplicates_by (fun s => s) l

/-- The unmatched-products warning set (weekly_with_prices.py:215-218):
distinct Producto values of rows matched by neither price source. -/
def unmatchedProducts (df : List TLine) (pt : List PrecioEntry)
    (ag : Option (List PrecioEntry)) : List String :=
  uniqueFirst ((df.filter (fun l => !(pt_matched pt l || ag_matched ag l))).map (·.producto))

/-
Price loaders (weekly_with_prices.py:67-115).
load_precios is modelled on the schema branch actually exercised by the
UNIDAD semantics (lines 82-94): PRECIO UNITARIO column absent, PRECIO DRIVE,
UNIDAD and a PRESENTACION column present.  The final strip + dedup step
(lines 77 and 97) is identical in every schema branch.
-/

/-- One raw row of PRECIOS.xlsx: Producto text (NOMBRE WANSOFT), price and
pack size already coerced by pd.to_numeric (none = NaN), UNIDAD text. -/
structure RawPrecioRow where
  producto : String := ""
  precioDrive : Option ℚ := none
  unidad : String := ""
  presentacion : Option ℚ := none
deriving DecidableEq, Repr

/-- The stripped, uppercased UNIDAD cell (weekly_with_prices.py:87). -/
def normUnidad (r : RawPrecioRow) : String := sUpper (sTrim r.unidad)

/-- mask_pz (weekly_with_prices.py:91): unit is PZ, pack size numeric and
positive, listed price not NaN. -/
def mask_pz (r : RawPrecioRow) : Bool :=
  (normUnidad r == "PZ")
    && (match r.presentacion with
        | some q => decide (0 < q)
        | none => false)
    && r.precioDrive.isSome

/-- Precio unitario of one PRECIOS row (weekly_with_prices.py:83-94): the
listed PRECIO DRIVE, divided by PRESENTACION exactly on mask_pz rows. -/
def precioUnitarioOfRow (r : RawPrecioRow) : Option ℚ :=
  if mask_pz r then
    match r.precioDrive, r.presentacion with
    | some p, some q => some (p / q)
    | _, _ => none
  else r.precioDrive

/-- The PrecioEntry a PRECIOS row becomes before deduplication
(weekly_with_prices.py:77: Producto is stripped first). -/
def precioEntryOfRow (r : RawPrecioRow) : PrecioEntry :=
  ⟨sTrim r.producto, precioUnitarioOfRow r⟩

/-- load_precios (weekly_with_prices.py:67-98) on the UNIDAD schema branch:
strip Producto, compute unit prices, drop_duplicates on Producto keeping the
first occurrence. -/
def load_precios (rows : List RawPrecioRow) : List PrecioEntry :=
  drop_duplicates_by (·.producto) (rows.map precioEntryOfRow)

/-- One raw row of AG_PRECIOS.xlsx (Producto, Precio unitario after
pd.to_numeric coercion). -/
structure RawAgRow where
  producto : String := ""
  precioUnitario : Option ℚ := none
deriving DecidableEq, Repr

/-- load_ag_precios (weekly_with_prices.py:101-115), given a readable file
with both required columns: strip Producto, coerce the price,
drop_duplicates on Producto keeping the first occurrence. -/
def load_ag_precios (rows : List RawAgRow) : List PrecioEntry :=
  drop_duplicates_by (·.producto)
    (rows.map (fun r => ⟨sTrim r.producto, r.precioUnitario⟩))

/-
compute_weekly_price_changes (weekly_with_prices.py:226-277).
-/

/-- One output row of compute_weekly_price_changes.  The record type plays
the role of the fixed output column schema; Sucursal destino and Orden are
carried through (the source appends them when present in the input). -/
structure PriceChangeRow where
  producto : String
  almacenOrigen : String
  cantidad : ℚ
  costoUnitarioBefore : Option ℚ
  costoUnitarioAfter : ℚ
  costoBefore : ℚ
  costoAfter : ℚ
  sucursalDestino : String
  orden : String
deriving DecidableEq, Repr

/-- The output row derived from one changed line
(weekly_with_prices.py:256-261): Costo_unitario_before is Costo_before
divided by Cantidad, with Cantidad 0 first replaced by NaN. -/
def priceChangeRowOf (l : TLine) : PriceChangeRow where
  producto := l.producto
  almacenOrigen := l.almacenOrigen
  cantidad := l.cantidad
  costoUnitarioBefore := if l.cantidad = 0 then none else some (l.costoBefore / l.cantidad)
  costoUnitarioAfter := l.costoUnitario
  costoBefore := l.costoBefore
  costoAfter := l.costoAfter
  sucursalDestino := l.sucursalDestino
  orden := l.orden

/-- The sort order of the final sort_values(by=[Producto, Almacen_origen]). -/
def pcLe (a b : PriceChangeRow) : Bool :=
  decide (a.producto < b.producto
    ∨ (a.producto = b.producto ∧ a.almacenOrigen ≤ b.almacenOrigen))

/-- compute_weekly_price_changes (weekly_with_prices.py:226-277): empty input
or no changed row yields the empty frame with the fixed schema; otherwise
one derived row per line whose Costo_before and Costo_after differ, sorted
by (Producto, Almacen_origen). -/
def compute_weekly_price_changes (df : List TLine) : List PriceChangeRow :=
  if df.isEmpty then []
  else
    let changed := df.filter (fun l => decide (l.costoBefore ≠ l.costoAfter))
    if changed.isEmpty then []
    else (changed.map priceChangeRowOf).mergeSort pcLe

/-
compute_weekly_cost_comparison (weekly_with_prices.py:444-463).
-/

/-- One aggregate row of weekly_cost_comparison.csv.  Pct_Change is none
when Total_Before is 0 (division by NaN). -/
structure WeekAgg where
  week : String
  totalBefore : ℚ
  totalAfter : ℚ
  difference : ℚ
  pctChange : Option ℚ
deriving DecidableEq, Repr

/-- Sum of a numeric column over a frame. -/
def sumBy (f : TLine → ℚ) (rows : List TLine) : ℚ := (rows.map f).sum

/-- The aggregate row of one week group. -/
def weekAggOf (work : List TLine) (w : String) : WeekAgg :=
  let rows := work.filter (fun l => l.week == w)
  let tb := sumBy (·.costoBefore) rows
  let ta := sumBy (·.costoAfter) rows
  { week := w
    totalBefore := tb
    totalAfter := ta
    difference := ta - tb
    pctChange := if tb = 0 then none else some ((ta - tb) / tb * 100) }

/-- compute_weekly_cost_comparison (weekly_with_prices.py:444-463): optional
filter dropping rows destined to "Panem - CEDIS", then groupby Week with
sums of Costo_before and Costo_after.  Groups are listed in first-occurrence
order (pandas emits them sorted by key; the claims are order-insensitive). -/
def compute_weekly_cost_comparison (df : List TLine)
    (excludeCedisDest : Bool) : List WeekAgg :=
  if df.isEmpty then []
  else
    let work := if excludeCedisDest
      then df.filter (fun l => decide (l.sucursalDestino ≠ "Panem - CEDIS"))
      else df
    (uniqueFirst (work.map (·.week))).map (weekAggOf work)

/-- Total Costo_after of the hub-destined lines of one week. -/
def cedisSum (df : List TLine) (w : String) : ℚ :=
  sumBy (·.costoAfter)
    (df.filter (fun l => l.week == w && l.sucursalDestino == "Panem - CEDIS"))

/-
Gold reference parser (gold_investigation.py:122-227).

A workbook sheet read with header=None is a rectangular grid of typed cells.
Dates are encoded as yyyymmdd integers, whose order coincides with
chronological order, so the string-vs-Timestamp window comparison of the
source is an integer comparison here.  pd.to_numeric / pd.to_datetime with
errors="coerce" yield none on cells of the wrong type (numeric or date text
inside string cells is not modelled; the claims only need typed cells).
-/

/-- A spreadsheet cell as read by pd.read_excel with header=None. -/
inductive Cell where
  | s (v : String)
  | n (v : ℚ)
  | d (v : Int)
  | blank
deriving DecidableEq, Repr

/-- astype(str) on one cell (NaN stringifies to "nan"; the exact rendering
of numeric and date cells is irrelevant to every claim). -/
def cellStr : Cell → String
  | .s v => v
  | .n v => toString v.num
  | .d v => toString v
  | .blank => "nan"

/-- pd.to_numeric(errors="coerce") on one cell. -/
def cellNum : Cell → Option ℚ
  | .n v => some v
  | _ => none

/-- pd.to_datetime(errors="coerce") on one cell. -/
def cellDate : Cell → Option Int
  | .d v => some v
  | _ => none

/-- detect_header_row (gold_investigation.py:122-128): index of the first of
the first 15 rows containing a cell whose text contains "Orden", else -1. -/
def detect_header_row (grid : List (List Cell)) : Int :=
  match (List.range (min 15 grid.length)).find?
      (fun i => (grid.getD i []).any (fun c => strContains (cellStr c) "Orden")) with
  | some i => (i : Int)
  | none => -1

/-- Column resolution next((i for i, c in enumerate(cols) if pred), default). -/
def colIdx (cols : List String) (p : String → Bool) (dflt : Nat) : Nat :=
  match (List.range cols.length).find? (fun i => p (cols.getD i "")) with
  | some i => i
  | none => dflt

/-- One structured row parsed from a gold detail sheet before the
quality filters (the columns of the intermediate frame built at
gold_investigation.py:151-159). -/
structure RawFact where
  orden : String
  almacenOrigen : String
  sucursalDestino : String
  fecha : Option Int
  cantidad : Option ℚ
  departamento : String
  producto : String
  costo : Option ℚ
deriving DecidableEq, Repr

/-- One kept gold fact (after the filters of gold_investigation.py:160-162). -/
structure GoldFact where
  orden : String
  almacenOrigen : String
  sucursalDestino : String
  fecha : Option Int
  cantidad : ℚ
  departamento : String
  producto : String
  costo : ℚ
  unitCost : ℚ
deriving DecidableEq, Repr

/-- parse_sheet (gold_investigation.py:131-163): locate the header row,
resolve column positions by substring match with fixed positional
fallbacks, build structured rows, keep rows with a product name longer than
2 characters and parseable cost and quantity, and derive UnitCost. -/
def parse_sheet (grid : List (List Cell)) (sucursal : Option String) :
    List GoldFact :=
  let hdr := detect_header_row grid
  if hdr < 0 then []
  else
    let h := hdr.toNat
    let cols := (grid.getD h []).map cellStr
    let data := grid.drop (h + 1)
    let ordenCol := colIdx cols (fun c => strContains c "Orden") 1
    let origenCol := colIdx cols
      (fun c => strContains c "Almac" && strContains (sLower c) "origen") 2
    let destCol := colIdx cols (fun c => strContains (sLower c) "destino") 3
    let fechaCol := colIdx cols (fun c => strContains c "Fecha") 5
    let cantCol := colIdx cols (fun c => strContains c "Cantidad") 6
    let deptoCol := colIdx cols (fun c => strContains c "Departamento") 7
    let prodCol := colIdx cols (fun c => strContains c "Producto") 8
    let costoCol0 := colIdx cols (fun c => strContains c "Costo") 10
    let costoCol := if cols.length ≤ costoCol0 then cols.length - 1 else costoCol0
    let raw : List RawFact := data.map (fun row =>
      { orden := cellStr (row.getD ordenCol .blank)
        almacenOrigen := sUpper (sTrim (cellStr (row.getD origenCol .blank)))
        sucursalDestino := match sucursal with
          | some v => v
          | none => sTrim (cellStr (row.getD destCol .blank))
        fecha := cellDate (row.getD fechaCol .blank)
        cantidad := cellNum (row.getD cantCol .blank)
        departamento := cellStr (row.getD deptoCol .blank)
        producto := sTrim (cellStr (row.getD prodCol .blank))
        costo := cellNum (row.getD costoCol .blank) })
    (raw.filter (fun r => 2 < sLength r.producto && r.costo.isSome && r.cantidad.isSome)).map
      (fun r =>
        let c := r.costo.getD 0
        let q := r.cantidad.getD 0
        { orden := r.orden
          almacenOrigen := r.almacenOrigen
          sucursalDestino := r.sucursalDestino
          fecha := r.fecha
          cantidad := q
          departamento := r.departamento
          producto := r.producto
          costo := c
          unitCost := c / q })

/-- SHEET_TO_SUCURSAL (gold_investigation.py:22-33). -/
def SHEET_TO_SUCURSAL : List (String × String) :=
  [("KAVIA", "Panem - Hotel Kavia N"),
   ("PV", "Panem - Punto Valle"),
   ("QIN", "Panem - Plaza QIN N"),
   ("Q", "Panem - Plaza QIN N"),
   ("HZ", "Panem - Hospital Zambrano N"),
   ("CARRETA", "Panem - La Carreta N"),
   ("C", "Panem - La Carreta N"),
   ("NATIVA", "Panem - Plaza Nativa"),
   ("N", "Panem - Plaza Nativa"),
   ("CC", "Panem - Credi Club")]

/-- GOLD_Fecha_START, as a yyyymmdd integer. -/
def GOLD_Fecha_START : Int := 20260202

/-- GOLD_Fecha_END, as a yyyymmdd integer. -/
def GOLD_Fecha_END : Int := 20260208

/-- The validation window filter (gold_investigation.py:207-209 and
215-217); a NaT date compares False on both sides and is dropped. -/
def inGoldWindow (fecha : Option Int) : Bool :=
  match fecha with
  | some dv => decide (GOLD_Fecha_START ≤ dv) && decide (dv ≤ GOLD_Fecha_END)
  | none => false

/-- Per-sheet step of the parse_gold_excel loop (gold_investigation.py:
176-203), accumulating the lists of kept per-sheet frames (all_rows,
ag_rows) in append order. -/
def goldSheetStep (acc : List (List GoldFact) × List (List GoldFact))
    (sheet : String × List (List Cell)) :
    List (List GoldFact) × List (List GoldFact) :=
  let name := sheet.1
  if name == "NUMEROS" then acc
  else if strContains name "-PT-W" then acc
  else
    let parts := splitDash name
    if parts.length < 2 then acc
    else
      let branch := parts.headD ""
      let sucursal := match SHEET_TO_SUCURSAL.find? (fun p => p.1 == branch) with
        | some p => p.2
        | none => "Panem - " ++ branch
      let parsed := parse_sheet sheet.2 (some sucursal)
      if parsed.isEmpty then acc
      else if strContains name "-AG" then
        let kept := parsed.filter (fun f => strContains f.almacenOrigen "ALMACEN GENERAL")
        if kept.isEmpty then acc else (acc.1 ++ [kept], acc.2 ++ [kept])
      else if strContains name "-PT-R" then
        let kept := parsed.filter
          (fun f => strContains f.almacenOrigen "ALMACEN PRODUCTO TERMINADO")
        if kept.isEmpty then acc else (acc.1 ++ [kept], acc.2)
      else acc

/-- parse_gold_excel (gold_investigation.py:166-218).  The result is in
Except because the source can raise: when all_rows is non-empty but ag_rows
is empty, ag_gold is the no-column frame pd.DataFrame(), and the window
filter then evaluates ag_gold["Fecha"], which raises KeyError.  The early
return on an empty all_rows (line 204-205) happens before that filter, so
the all-empty workbook returns a pair of empty frames normally. -/
def parse_gold_excel (book : List (String × List (List Cell))) :
    Except String (List GoldFact × List GoldFact) :=
  let acc := book.foldl goldSheetStep ([], [])
  if acc.1.isEmpty then .ok ([], [])
  else
    let allGold := acc.1.flatten.filter (fun f => inGoldWindow f.fecha)
    if acc.2.isEmpty then .error "KeyError: Fecha"
    else .ok (allGold, acc.2.flatten.filter (fun f => inGoldWindow f.fecha))

/-
build_gold_lookup (gold_investigation.py:221-227).
-/

/-- Python dict assignment d[k] = v: overwrite in place when the key exists
(keeping its original position), else append. -/
def dictInsert {β : Type} (d : List ((String × String) × β))
    (k : String × String) (v : β) : List ((String × String) × β) :=
  match d with
  | [] => [(k, v)]
  | (k', v') :: rest =>
    if k' = k then (k', v) :: rest else (k', v') :: dictInsert rest k v

/-- Python dict lookup d.get(k). -/
def dictGet {β : Type} (d : List ((String × String) × β))
    (k : String × String) : Option β :=
  (d.find? (fun e => e.1 == k)).map (·.2)

/-- The (Orden, Producto) key of a gold row, both stripped
(gold_investigation.py:225). -/
def goldKey (f : GoldFact) : String × String := (sTrim f.orden, sTrim f.producto)

/-- build_gold_lookup (gold_investigation.py:221-227): iterate the gold rows
in order, assigning lookup[(Orden, Producto)] = (UnitCost, Costo); a later
row with the same key overwrites the earlier value. -/
def build_gold_lookup (gold : List GoldFact) : List ((String × String) × (ℚ × ℚ)) :=
  gold.foldl (fun d row => dictInsert d (goldKey row) (row.unitCost, row.costo)) []

/-
Concrete inputs used by the per-claim counterexamples and witnesses.
-/

/-- A PT price table holding both a typo key and its alias target, with
different prices. -/
def C5pt : List PrecioEntry :=
  [⟨"mayones de panem *", some 10⟩, ⟨"mayonesa de panem *", some 20⟩]

/-- A transfer line whose normalized product name is the typo key. -/
def C5line : TLine :=
  { producto := "Mayones de Panem *"
    almacenOrigen := "ALMACEN PRODUCTO TERMINADO"
    cantidad := 1, costo := 0, costoUnitario := 0 }

/-- A PT-origin line whose recorded Costo (3) is corrected to 5. -/
def C2line : TLine :=
  { producto := "pan", almacenOrigen := "ALMACEN PRODUCTO TERMINADO"
    cantidad := 1, costo := 3, costoUnitario := 3 }

/-- A one-product PT price table used with C2line. -/
def C2pt : List PrecioEntry := [⟨"pan", some 5⟩]

/-- An unmatched line whose recorded Costo (11) differs from
Cantidad * Costo unitario (10). -/
def C3cex : TLine :=
  { producto := "pancito", almacenOrigen := "OTRO ALMACEN"
    cantidad := 2, costo := 11, costoUnitario := 5 }

/-- Two PRECIOS rows whose product names differ after stripping but
normalize to the same matching key. -/
def C4rows : List RawPrecioRow :=
  [{ producto := "FOO", precioDrive := some 1, unidad := "KG" },
   { producto := "foo", precioDrive := some 2, unidad := "KG" }]

/-- Two AG price rows with identical stripped product names. -/
def C4agRows : List RawAgRow :=
  [{ producto := " Harina ", precioUnitario := some 3 },
   { producto := "Harina", precioUnitario := some 4 }]

/-- A PRECIOS row with unit LT. -/
def C6rowLT : RawPrecioRow :=
  { producto := "leche", precioDrive := some 30, unidad := "LT", presentacion := some 12 }

/-- A PRECIOS row with unit PZ and a positive pack size. -/
def C6rowPZ : RawPrecioRow :=
  { producto := "pan", precioDrive := some 10, unidad := " pz ", presentacion := some 4 }

/-- A PRECIOS row with unit PZ and a missing pack size. -/
def C6rowPZbad : RawPrecioRow :=
  { producto := "bolillo", precioDrive := some 10, unidad := "PZ", presentacion := none }

/-- A gold workbook whose only kept sheet is a PT-R detail sheet with one
valid finished-goods row inside the validation window, so all_rows is
non-empty while ag_rows stays empty. -/
def C7book : List (String × List (List Cell)) :=
  [("KAVIA-PT-R",
    [[.s "x", .s "Orden", .s "Almacén origen", .s "Sucursal destino", .s "y",
      .s "Fecha", .s "Cantidad", .s "Departamento", .s "Producto", .s "z", .s "Costo"],
     [.blank, .s "100", .s "ALMACEN PRODUCTO TERMINADO", .s "Panem - Hotel Kavia N",
      .blank, .d 20260203, .n 5, .s "PAN", .s "CROISSANT", .blank, .n 50]])]

/-- A branch-destined line with Costo_after 10. -/
def C9r1 : TLine :=
  { week := "2026-02-02_2026-02-08", sucursalDestino := "Sucursal X", costoAfter := 10 }

/-- A hub-destined line with negative Costo_after. -/
def C9r2 : TLine :=
  { week := "2026-02-02_2026-02-08", sucursalDestino := "Panem - CEDIS", costoAfter := -1 }

/-- One week of transfers with a negative-cost hub-destined line. -/
def C9df : List TLine := [C9r1, C9r2]

/-- A small all-nonnegative table used to witness the amended C9 theorem. -/
def C9wdf : List TLine :=
  [{ week := "W1", sucursalDestino := "Sucursal A", costoAfter := 5, costoBefore := 4 },
   { week := "W1", sucursalDestino := "Panem - CEDIS", costoAfter := 2, costoBefore := 2 }]

/-- A PT price table used by the C1 witness. -/
def C1pt : List PrecioEntry := [⟨"pan", some 4⟩]

/-- An AG price table used by the C1 witness. -/
def C1ag : Option (List PrecioEntry) := some [⟨"pan", some 6⟩]

/-- A general-warehouse line used by the C1 witness. -/
def C1lineAG : TLine :=
  { producto := "pan", almacenOrigen := "ALMACEN GENERAL"
    cantidad := 2, costo := 7, costoUnitario := 3 }

/-- A finished-goods line used by the C1 witness. -/
def C1linePT : TLine :=
  { producto := "pan", almacenOrigen := "ALMACEN PRODUCTO TERMINADO"
    cantidad := 2, costo := 7, costoUnitario := 3 }

/-- A line whose cost changed during correction. -/
def C8chLine : TLine :=
  { producto := "A", almacenOrigen := "ALMACEN GENERAL", cantidad := 4
    costoBefore := 8, costoAfter := 9, costoUnitario := 0 }

/-- A line whose cost did not change. -/
def C8unchLine : TLine :=
  { producto := "B", almacenOrigen := "ALMACEN GENERAL", cantidad := 5
    costoBefore := 50, costoAfter := 50, costoUnitario := 10 }

/-- A two-line table, one changed line and one unchanged line. -/
def C8wdf : List TLine := [C8chLine, C8unchLine]

/-
General lemmas about the deduplication and dictionary helpers.
-/

theorem mem_of_mem_dropDupAux {α β : Type} [DecidableEq β] (key : α → β) :
    ∀ (seen : List β) (l : List α) (b : α), b ∈ dropDupAux key seen l → b ∈ l := by
  intro seen l
  induction l generalizing seen with
  | nil => intro b h; simp [dropDupAux] at h
  | cons a t ih =>
    intro b h
    simp only [dropDupAux] at h
    by_cases hk : key a ∈ seen
    · rw [if_pos hk] at h
      exact List.mem_cons_of_mem a (ih seen b h)
    · rw [if_neg hk] at h
      rcases List.mem_cons.mp h with rfl | h'
      · exact List.mem_cons_self _ _
      · exact List.mem_cons_of_mem a (ih _ b h')

theorem dropDupAux_covers {α β : Type} [DecidableEq β] (key : α → β) :
    ∀ (seen : List β) (l : List α) (a : α), a ∈ l → key a ∉ seen →
      ∃ b ∈ dropDupAux key seen l, key b = key a := by
  intro seen l
  induction l generalizing seen with
  | nil => simp
  | cons x t ih =>
    intro a ha hseen
    simp only [dropDupAux]
    by_cases hk : key x ∈ seen
    · rw [if_pos hk]
      rcases List.mem_cons.mp ha with rfl | ha'
      · exact absurd hk hseen
      · exact ih seen a ha' hseen
    · rw [if_neg hk]
      rcases List.mem_cons.mp ha with rfl | ha'
      · exact ⟨a, List.mem_cons_self _ _, rfl⟩
      · by_cases heq : key a ∈ key x :: seen
        · have hkey : key a = key x := by
            rcases List.mem_cons.mp heq with h | h
            · exact h
            · exact absurd h hseen
          exact ⟨x, List.mem_cons_self _ _, hkey.symm⟩
        · obtain ⟨b, hb, hkb⟩ := ih (key x :: seen) a ha' heq
          exact ⟨b, List.mem_cons_of_mem _ hb, hkb⟩

theorem dropDupAux_first {α β : Type} [DecidableEq β] (key : α → β) :
    ∀ (seen : List β) (l : List α) (b : α), b ∈ dropDupAux key seen l →
      key b ∉ seen ∧ l.find? (fun x => decide (key x = key b)) = some b := by
  intro seen l
  induction l generalizing seen with
  | nil => simp [dropDupAux]
  | cons a t ih =>
    intro b hb
    simp only [dropDupAux] at hb
    by_cases hk : key a ∈ seen
    · rw [if_pos hk] at hb
      obtain ⟨hnotin, hfind⟩ := ih seen b hb
      have hne : key a ≠ key b := fun h => hnotin (h ▸ hk)
      refine ⟨hnotin, ?_⟩
      rw [List.find?_cons_of_neg _ (by simpa using hne), hfind]
    · rw [if_neg hk] at hb
      rcases List.mem_cons.mp hb with rfl | hb'
      · exact ⟨hk, List.find?_cons_of_pos _ (by simp)⟩
      · obtain ⟨hnotin, hfind⟩ := ih (key a :: seen) b hb'
        have hne : key a ≠ key b := fun h => hnotin (by simp [h])
        refine ⟨fun h => hnotin (List.mem_cons_of_mem _ h), ?_⟩
        rw [List.find?_cons_of_neg _ (by simpa using hne), hfind]

theorem dropDupAux_keys_nodup {α β : Type} [DecidableEq β] (key : α → β) :
    ∀ (seen : List β) (l : List α),
      ((dropDupAux key seen l).map key).Nodup
      ∧ ∀ b ∈ dropDupAux key seen l, key b ∉ seen := by
  intro seen l
  induction l generalizing seen with
  | nil => simp [dropDupAux]
  | cons a t ih =>
    simp only [dropDupAux]
    by_cases hk : key a ∈ seen
    · rw [if_pos hk]; exact ih seen
    · rw [if_neg hk]
      obtain ⟨hnd, hni⟩ := ih (key a :: seen)
      refine ⟨?_, ?_⟩
      · simp only [List.map_cons, List.nodup_cons]
        refine ⟨fun hmem => ?_, hnd⟩
        obtain ⟨b, hb, hkb⟩ := List.mem_map.mp hmem
        exact hni b hb (by simp [hkb])
      · intro b hb
        rcases List.mem_cons.mp hb with rfl | hb'
        · exact hk
        · exact fun hmem => hni b hb' (List.mem_cons_of_mem _ hmem)

theorem mem_uniqueFirst {a : String} {l : List String} :
    a ∈ uniqueFirst l ↔ a ∈ l := by
  constructor
  · exact fun h => mem_of_mem_dropDupAux _ _ _ _ h
  · intro h
    obtain ⟨b, hb, hkb⟩ := dropDupAux_covers (fun s => s) [] l a h (by simp)
    simpa using hkb ▸ hb

theorem dictGet_insert {β : Type} (d : List ((String × String) × β))
    (k0 k : String × String) (v : β) :
    dictGet (dictInsert d k0 v) k = if k0 = k then some v else dictGet d k := by
  induction d with
  | nil =>
    by_cases h : k0 = k <;> simp [dictInsert, dictGet, h]
  | cons e rest ih =>
    obtain ⟨k', v'⟩ := e
    by_cases h1 : k' = k0
    · subst h1
      by_cases h : k' = k <;> simp [dictInsert, dictGet, h]
    · by_cases h : k' = k
      · subst h
        have : k0 ≠ k' := fun hh => h1 hh.symm
        simp [dictInsert, dictGet, h1, this]
      · simp only [dictInsert, if_neg h1]
        by_cases h2 : k0 = k
        · simpa [dictGet, h, h2] using ih
        · simpa [dictGet, h, h2] using ih

/-
Claim theorems.
-/

/-- C10: build_gold_lookup maps an (order id, product name) key occurring in
several gold rows to the unit cost and cost of the last such row: the lookup
of any key equals the value derived from the last gold row whose stripped
(Orden, Producto) pair is that key (later duplicates overwrite earlier
ones). -/
theorem claim_C10_gold_lookup_last_wins (gold : List GoldFact) (k : String × String) :
    dictGet (build_gold_lookup gold) k
      = ((gold.filter (fun f => decide (goldKey f = k))).getLast?).map
          (fun f => (f.unitCost, f.costo)) := by
  induction gold using List.reverseRecOn with
  | nil => rfl
  | append_singleton l a ih =>
    unfold build_gold_lookup at ih ⊢
    rw [List.foldl_append, List.foldl_cons, List.foldl_nil, dictGet_insert]
    by_cases hk : goldKey a = k
    · simp [hk, List.filter_append, List.getLast?_concat]
    · simp [hk, List.filter_append, ih]

/-- C4 counterexample: the loaders deduplicate on the merely stripped
product name, not on the normalized matching key.  On two rows named "FOO"
and "foo" — distinct after stripping, identical after normalization — both
entries are kept, so the normalized product keys of the loaded map are not
pairwise distinct and the later duplicate is not dropped. -/
theorem claim_C4_counterexample :
    (load_precios C4rows).length = 2
    ∧ ¬ (((load_precios C4rows).map
          (fun e => normalize_producto_for_match e.producto)).Nodup) := by
  constructor
  · decide
  · decide

/-- C4 amended: each price loader (PT and AG) keeps at most one entry per
STRIPPED product name — the first occurrence wins and later rows with the
same stripped name are dropped, so the stripped names of the loaded map are
pairwise distinct (names that differ before normalization may still
normalize to the same matching key). -/
theorem claim_C4_amended (rows : List RawPrecioRow) (agRows : List RawAgRow) :
    ((load_precios rows).map (·.producto)).Nodup
    ∧ (∀ e ∈ load_precios rows,
        (rows.map precioEntryOfRow).find? (fun x => decide (x.producto = e.producto)) = some e)
    ∧ ((load_ag_precios agRows).map (·.producto)).Nodup
    ∧ (∀ e ∈ load_ag_precios agRows,
        (agRows.map (fun r => (⟨sTrim r.producto, r.precioUnitario⟩ : PrecioEntry))).find?
          (fun x => decide (x.producto = e.producto)) = some e) := by
  unfold load_precios load_ag_precios drop_duplicates_by
  refine ⟨?_, ?_, ?_, ?_⟩
  · exact (dropDupAux_keys_nodup (fun e => e.producto) [] (rows.map precioEntryOfRow)).1
  · intro e he
    exact (dropDupAux_first (fun e => e.producto) [] (rows.map precioEntryOfRow) e he).2
  · exact (dropDupAux_keys_nodup (fun e : PrecioEntry => e.producto) [] _).1
  · intro e he
    exact (dropDupAux_first (fun e : PrecioEntry => e.producto) [] _ e he).2

/-- C4 amended, witnessed at C4rows and C4agRows: the first "FOO" row and
the first " Harina " row are the entries found first for their stripped
names. -/
theorem claim_C4_amended_witness :
    (⟨"FOO", some 1⟩ : PrecioEntry) ∈ load_precios C4rows
    ∧ (C4rows.map precioEntryOfRow).find?
        (fun x => decide (x.producto = "FOO")) = some ⟨"FOO", some 1⟩
    ∧ (⟨"Harina", some 3⟩ : PrecioEntry) ∈ load_ag_precios C4agRows
    ∧ (C4agRows.map (fun r => (⟨sTrim r.producto, r.precioUnitario⟩ : PrecioEntry))).find?
        (fun x => decide (x.producto = "Harina")) = some ⟨"Harina", some 3⟩ :=
  ⟨by decide,
   (claim_C4_amended C4rows C4agRows).2.1 ⟨"FOO", some 1⟩ (by decide),
   by decide,
   (claim_C4_amended C4rows C4agRows).2.2.2 ⟨"Harina", some 3⟩ (by decide)⟩

/-- C6: in the PT price loader with a UNIDAD column, a row with unit LT or
KG uses the listed price unchanged as the unit price; a PZ row with a
positive numeric pack size uses the listed price divided by the pack size;
and a PZ row whose pack size is missing or non-positive keeps the listed
price unmodified. -/
theorem claim_C6_unidad_semantics (r : RawPrecioRow) (p : ℚ)
    (hp : r.precioDrive = some p) :
    ((normUnidad r = "LT" ∨ normUnidad r = "KG") → precioUnitarioOfRow r = some p)
    ∧ (∀ q, r.presentacion = some q → 0 < q → normUnidad r = "PZ" →
        precioUnitarioOfRow r = some (p / q))
    ∧ (normUnidad r = "PZ" →
        (r.presentacion = none ∨ ∃ q, r.presentacion = some q ∧ q ≤ 0) →
        precioUnitarioOfRow r = some p) := by
  refine ⟨?_, ?_, ?_⟩
  · intro hu
    have hmask : mask_pz r = false := by
      unfold mask_pz
      rcases hu with h | h <;> rw [h] <;> rfl
    simp [precioUnitarioOfRow, hmask, hp]
  · intro q hq hqpos hu
    have hmask : mask_pz r = true := by
      unfold mask_pz
      rw [hu, hq, hp]
      simp [hqpos]
    simp [precioUnitarioOfRow, hmask, hp, hq]
  · intro hu hbad
    have hmask : mask_pz r = false := by
      unfold mask_pz
      rcases hbad with h | ⟨q, hq, hqle⟩
      · rw [h]; simp
      · rw [hq]
        have : ¬ (0 < q) := not_lt.mpr hqle
        simp [this]
    simp [precioUnitarioOfRow, hmask, hp]

/-- C6 witnessed at three concrete PRECIOS rows: an LT row keeps its listed
price 30, a PZ row with pack size 4 turns listed price 10 into 10/4, and a
PZ row with no pack size keeps its listed price 10. -/
theorem claim_C6_unidad_semantics_witness :
    precioUnitarioOfRow C6rowLT = some 30
    ∧ precioUnitarioOfRow C6rowPZ = some (10 / 4)
    ∧ precioUnitarioOfRow C6rowPZbad = some 10 :=
  ⟨(claim_C6_unidad_semantics C6rowLT 30 rfl).1 (Or.inl (by decide)),
   (claim_C6_unidad_semantics C6rowPZ 10 rfl).2.1 4 rfl (by norm_num) (by decide),
   (claim_C6_unidad_semantics C6rowPZbad 10 rfl).2.2 (by decide) (Or.inl rfl)⟩

/-- C7: the claim says parse_gold_excel is total at the workbook level and in
particular returns normally on a workbook whose kept sheets yield PT-R facts
but no AG facts.  The code instead raises there: on C7book the loop keeps a
non-empty all_rows and an empty ag_rows, ag_gold becomes the no-column frame
pd.DataFrame(), and indexing it with "Fecha" for the window filter raises
KeyError.  This theorem evaluates the model at that failing workbook. -/
theorem claim_C7_parse_gold_raises :
    (C7book.foldl goldSheetStep ([], [])).1.flatten ≠ []
    ∧ (C7book.foldl goldSheetStep ([], [])).2 = []
    ∧ parse_gold_excel C7book = .error "KeyError: Fecha" :=
  ⟨by decide, by decide, rfl⟩

/-
Projection lemmas for applyPricesLine.  The update touches only the cost
fields, so every key used for matching is preserved definitionally.
-/

theorem pt_matched_applyPricesLine (pt pt2 : List PrecioEntry)
    (ag : Option (List PrecioEntry)) (l : TLine) :
    pt_matched pt (applyPricesLine pt2 ag l) = pt_matched pt l := rfl

theorem ag_matched_applyPricesLine (pt : List PrecioEntry)
    (ag ag2 : Option (List PrecioEntry)) (l : TLine) :
    ag_matched ag (applyPricesLine pt ag2 l) = ag_matched ag l := rfl

theorem ptPrice_applyPricesLine (pt pt2 : List PrecioEntry)
    (ag : Option (List PrecioEntry)) (l : TLine) :
    ptPrice pt (applyPricesLine pt2 ag l) = ptPrice pt l := rfl

theorem agPrice_applyPricesLine (pt : List PrecioEntry)
    (ag ag2 : Option (List PrecioEntry)) (l : TLine) :
    agPrice ag (applyPricesLine pt ag2 l) = agPrice ag l := rfl

theorem cantidad_applyPricesLine (pt : List PrecioEntry)
    (ag : Option (List PrecioEntry)) (l : TLine) :
    (applyPricesLine pt ag l).cantidad = l.cantidad := rfl

theorem applyPricesLine_costoUnitario (pt : List PrecioEntry)
    (ag : Option (List PrecioEntry)) (l : TLine) :
    (applyPricesLine pt ag l).costoUnitario =
      if ag_matched ag l then
        (agPrice ag l).getD
          (if pt_matched pt l then (ptPrice pt l).getD l.costoUnitario else l.costoUnitario)
      else if pt_matched pt l then (ptPrice pt l).getD l.costoUnitario
      else l.costoUnitario := rfl

theorem applyPricesLine_costo (pt : List PrecioEntry)
    (ag : Option (List PrecioEntry)) (l : TLine) :
    (applyPricesLine pt ag l).costo
      = l.cantidad * (applyPricesLine pt ag l).costoUnitario := rfl

theorem applyPricesLine_costoAfter (pt : List PrecioEntry)
    (ag : Option (List PrecioEntry)) (l : TLine) :
    (applyPricesLine pt ag l).costoAfter = (applyPricesLine pt ag l).costo := rfl

theorem applyPricesLine_costoBefore (pt : List PrecioEntry)
    (ag : Option (List PrecioEntry)) (l : TLine) :
    (applyPricesLine pt ag l).costoBefore = l.costo := rfl

theorem ag_matched_isSome {ag : Option (List PrecioEntry)} {l : TLine}
    (h : ag_matched ag l = true) : (agPrice ag l).isSome := by
  unfold ag_matched at h
  exact (Bool.and_eq_true _ _).mp h |>.2

theorem pt_matched_isSome {pt : List PrecioEntry} {l : TLine}
    (h : pt_matched pt l = true) : (ptPrice pt l).isSome := by
  unfold pt_matched at h
  exact (Bool.and_eq_true _ _).mp h |>.2

/-- Re-applying the per-line correction does not change the corrected unit
cost: the matching keys are untouched, so the second pass overwrites the
unit cost with the same price (or leaves it alone when unmatched). -/
theorem applyPricesLine_unit_stable (pt : List PrecioEntry)
    (ag : Option (List PrecioEntry)) (l : TLine) :
    (applyPricesLine pt ag (applyPricesLine pt ag l)).costoUnitario
      = (applyPricesLine pt ag l).costoUnitario := by
  rw [applyPricesLine_costoUnitario pt ag (applyPricesLine pt ag l),
    ag_matched_applyPricesLine, agPrice_applyPricesLine,
    pt_matched_applyPricesLine, ptPrice_applyPricesLine]
  by_cases hag : ag_matched ag l = true
  · obtain ⟨q, hq⟩ := Option.isSome_iff_exists.mp (ag_matched_isSome hag)
    rw [applyPricesLine_costoUnitario pt ag l]
    simp [hag, hq]
  · have hag' : ag_matched ag l = false := by simpa using hag
    by_cases hpt : pt_matched pt l = true
    · obtain ⟨p, hp⟩ := Option.isSome_iff_exists.mp (pt_matched_isSome hpt)
      rw [applyPricesLine_costoUnitario pt ag l]
      simp [hag', hpt, hp]
    · have hpt' : pt_matched pt l = false := by simpa using hpt
      rw [applyPricesLine_costoUnitario pt ag l]
      simp [hag', hpt']

/-- C1: origin class is the sole price-source discriminator.  A line whose
origin text is "ALMACEN GENERAL" is priced identically under any two PT
maps (the PT map is never consulted for it), a line whose origin text is
"ALMACEN PRODUCTO TERMINADO" is priced identically under any two AG maps,
and the final unit cost comes from at most one source: the AG price when
ag_matched, else the PT price when pt_matched, else the original unit
cost. -/
theorem claim_C1_origin_exclusivity (pt pt2 : List PrecioEntry)
    (ag ag2 : Option (List PrecioEntry)) (l : TLine) :
    (l.almacenOrigen = "ALMACEN GENERAL" →
      applyPricesLine pt ag l = applyPricesLine pt2 ag l)
    ∧ (l.almacenOrigen = "ALMACEN PRODUCTO TERMINADO" →
      applyPricesLine pt ag l = applyPricesLine pt ag2 l)
    ∧ (∀ q, ag_matched ag l = true → agPrice ag l = some q →
        (applyPricesLine pt ag l).costoUnitario = q)
    ∧ (ag_matched ag l = false → ∀ q, pt_matched pt l = true → ptPrice pt l = some q →
        (applyPricesLine pt ag l).costoUnitario = q)
    ∧ (ag_matched ag l = false → pt_matched pt l = false →
        (applyPricesLine pt ag l).costoUnitario = l.costoUnitario) := by
  refine ⟨?_, ?_, ?_, ?_, ?_⟩
  · intro h
    have hsc : strContains (normOrigin l) "PRODUCTO TERMINADO" = false := by
      unfold normOrigin
      rw [h]
      rfl
    have hpm : ∀ pts : List PrecioEntry, pt_matched pts l = false := fun pts => by
      unfold pt_matched
      rw [hsc]
      rfl
    simp [applyPricesLine, hpm]
  · intro h
    have hsc : strContains (normOrigin l) "ALMACEN GENERAL" = false := by
      unfold normOrigin
      rw [h]
      rfl
    have ham : ∀ a : Option (List PrecioEntry), ag_matched a l = false := fun a => by
      unfold ag_matched
      rw [hsc]
      rfl
    simp [applyPricesLine, ham]
  · intro q hag hq
    rw [applyPricesLine_costoUnitario]
    simp [hag, hq]
  · intro hag q hpt hq
    rw [applyPricesLine_costoUnitario]
    simp [hag, hpt, hq]
  · intro hag hpt
    rw [applyPricesLine_costoUnitario]
    simp [hag, hpt]

/-- C1 witnessed: a general-warehouse line is unaffected by replacing the PT
map, a finished-goods line is unaffected by replacing the AG map, the AG
line takes the AG price 6, the PT line takes the PT price 4, and an
unmatched configuration keeps the original unit cost 3. -/
theorem claim_C1_origin_exclusivity_witness :
    applyPricesLine C1pt C1ag C1lineAG = applyPricesLine [] C1ag C1lineAG
    ∧ applyPricesLine C1pt C1ag C1linePT = applyPricesLine C1pt none C1linePT
    ∧ (applyPricesLine C1pt C1ag C1lineAG).costoUnitario = 6
    ∧ (applyPricesLine C1pt C1ag C1linePT).costoUnitario = 4
    ∧ (applyPricesLine [] none C1lineAG).costoUnitario = C1lineAG.costoUnitario :=
  ⟨(claim_C1_origin_exclusivity C1pt [] C1ag C1ag C1lineAG).1 rfl,
   (claim_C1_origin_exclusivity C1pt C1pt C1ag none C1linePT).2.1 rfl,
   (claim_C1_origin_exclusivity C1pt C1pt C1ag C1ag C1lineAG).2.2.1 6 (by decide) (by decide),
   (claim_C1_origin_exclusivity C1pt C1pt C1ag C1ag C1linePT).2.2.2.1 (by decide) 4
     (by decide) (by decide),
   (claim_C1_origin_exclusivity [] [] none none C1lineAG).2.2.2.2 (by decide) (by decide)⟩

/-- With pairwise-distinct normalized keys a left join attaches exactly one
_Precio value per line: the price of the unique matching row, or NaN. -/
theorem leftJoinPrices_eq_singleton (table : List PrecioEntry) (key : String)
    (h : (table.map (fun e => normalize_producto_for_match e.producto)).Nodup) :
    leftJoinPrices table key = [findPrecio table key] := by
  induction table with
  | nil => rfl
  | cons e rest ih =>
    simp only [List.map_cons, List.nodup_cons] at h
    obtain ⟨hnot, hrest⟩ := h
    by_cases hk : (normalize_producto_for_match e.producto == key) = true
    · have hke : normalize_producto_for_match e.producto = key := by simpa using hk
      have hfil : rest.filter
          (fun x => normalize_producto_for_match x.producto == key) = [] := by
        apply List.filter_eq_nil_iff.mpr
        intro x hx hxk
        apply hnot
        have hxe : normalize_producto_for_match x.producto
            = normalize_producto_for_match e.producto := by
          rw [hke]
          simpa using hxk
        exact List.mem_map.mpr ⟨x, hx, hxe⟩
      have hfc : List.filter (fun x => normalize_producto_for_match x.producto == key)
          (e :: rest)
          = e :: List.filter (fun x => normalize_producto_for_match x.producto == key) rest :=
        List.filter_cons_of_pos hk
      have hfd : List.find? (fun x => normalize_producto_for_match x.producto == key)
          (e :: rest) = some e :=
        List.find?_cons_of_pos _ hk
      unfold leftJoinPrices findPrecio
      rw [hfc, hfil, hfd]
      rfl
    · have hk' : (normalize_producto_for_match e.producto == key) = false := by
        simpa using hk
      have hfc : List.filter (fun x => normalize_producto_for_match x.producto == key)
          (e :: rest)
          = List.filter (fun x => normalize_producto_for_match x.producto == key) rest :=
        List.filter_cons_of_neg (by simp [hk'])
      have hfd : List.find? (fun x => normalize_producto_for_match x.producto == key)
          (e :: rest)
          = List.find? (fun x => normalize_producto_for_match x.producto == key) rest :=
        List.find?_cons_of_neg _ (by simp [hk'])
      unfold leftJoinPrices findPrecio at ih ⊢
      rw [hfc, hfd]
      exact ih hrest

/-- The AG variant of leftJoinPrices_eq_singleton, including the
absent-or-empty guard. -/
theorem agJoinPrices_eq_singleton (ag : Option (List PrecioEntry)) (l : TLine)
    (hag : ∀ t, ag = some t →
      (t.map (fun e => normalize_producto_for_match e.producto)).Nodup) :
    agJoinPrices ag (lookupKey l) = [agPrice ag l] := by
  cases ag with
  | none => rfl
  | some t =>
    unfold agJoinPrices agPrice
    by_cases ht : t.isEmpty
    · simp [ht]
    · simp only [ht, Bool.false_eq_true, if_false]
      exact leftJoinPrices_eq_singleton t (lookupKey l) (hag t rfl)

/-- A merged row built from the unique joined prices of a line is exactly
the per-line correction. -/
theorem applyMergedRow_prices (pt : List PrecioEntry)
    (ag : Option (List PrecioEntry)) (l : TLine) :
    applyMergedRow l (findPrecio pt (lookupKey l)) (agPrice ag l)
      = applyPricesLine pt ag l := rfl

/-- When the normalized keys of each price table are pairwise distinct, the
faithful table-level apply_prices (with join fan-out) produces exactly one
row per line and agrees with the per-line map. -/
theorem apply_prices_table_eq_map (df : List TLine) (pt : List PrecioEntry)
    (ag : Option (List PrecioEntry))
    (hpt : (pt.map (fun e => normalize_producto_for_match e.producto)).Nodup)
    (hag : ∀ t, ag = some t →
      (t.map (fun e => normalize_producto_for_match e.producto)).Nodup) :
    apply_prices_table df pt ag = apply_prices df pt ag := by
  unfold apply_prices_table apply_prices
  induction df with
  | nil => rfl
  | cons a t ih =>
    simp only [List.map_cons, List.flatten_cons]
    rw [leftJoinPrices_eq_singleton pt (lookupKey a) hpt,
      agJoinPrices_eq_singleton ag a hag]
    simp only [List.map_cons, List.map_nil, List.flatten_cons, List.flatten_nil,
      List.append_nil, List.nil_append, List.singleton_append]
    rw [applyMergedRow_prices]
    exact congrArg (applyPricesLine pt ag a :: ·) ih

/-- Re-applying the per-line correction changes no unit cost, line cost, or
Costo_after: the corrected cost columns are a fixed point of the per-line
map. -/
theorem apply_prices_cost_idem (pt : List PrecioEntry)
    (ag : Option (List PrecioEntry)) (df : List TLine) :
    (apply_prices (apply_prices df pt ag) pt ag).map
        (fun l => (l.costoUnitario, l.costo, l.costoAfter))
      = (apply_prices df pt ag).map
        (fun l => (l.costoUnitario, l.costo, l.costoAfter)) := by
  unfold apply_prices
  simp only [List.map_map]
  refine List.map_congr_left ?_
  intro x _
  have hu := applyPricesLine_unit_stable pt ag x
  have hc : (applyPricesLine pt ag (applyPricesLine pt ag x)).costo
      = (applyPricesLine pt ag x).costo := by
    rw [applyPricesLine_costo pt ag (applyPricesLine pt ag x),
      cantidad_applyPricesLine, hu, applyPricesLine_costo pt ag x]
  have ha : (applyPricesLine pt ag (applyPricesLine pt ag x)).costoAfter
      = (applyPricesLine pt ag x).costoAfter := by
    rw [applyPricesLine_costoAfter, applyPricesLine_costoAfter, hc]
  simp [Function.comp, hu, hc, ha]

/-- C2 counterexample: run twice on a one-line table whose recorded Costo 3
is corrected to 5 (a duplicate-free price map, where the join is one row
per line), the second run re-snapshots Costo_before from the corrected
Costo, so the full output of the second run differs from the output of the
first run — apply_prices is not idempotent as a whole-output function. -/
theorem claim_C2_counterexample :
    apply_prices_table (apply_prices_table [C2line] C2pt none) C2pt none
      ≠ apply_prices_table [C2line] C2pt none := by
  rw [apply_prices_table_eq_map [C2line] C2pt none (by decide)
      (fun t ht => Option.noConfusion ht),
    apply_prices_table_eq_map (apply_prices [C2line] C2pt none) C2pt none (by decide)
      (fun t ht => Option.noConfusion ht)]
  intro h
  have hab : applyPricesLine C2pt none (applyPricesLine C2pt none C2line)
      = applyPricesLine C2pt none C2line := by
    simpa [apply_prices] using h
  have hb := congrArg TLine.costoBefore hab
  rw [applyPricesLine_costoBefore, applyPricesLine_costoBefore,
    applyPricesLine_costo] at hb
  have hu : (applyPricesLine C2pt none C2line).costoUnitario = 5 := by
    rw [applyPricesLine_costoUnitario]
    have h1 : ag_matched none C2line = false := rfl
    have h2 : pt_matched C2pt C2line = true := by decide
    have h3 : ptPrice C2pt C2line = some 5 := rfl
    simp [h1, h2, h3]
  rw [hu] at hb
  simp only [C2line] at hb
  norm_num at hb

/-- C2 amended: when the normalized product keys of each price table are
pairwise distinct (so the left joins attach exactly one price per line and
do not fan rows out), re-applying apply_prices with the same price maps
changes no unit cost, line cost, or Costo_after of any output row — the
corrected cost columns are a fixed point; only the Costo_before snapshot
column is re-taken from the already-corrected cost, which is why the whole
output is still not identical.  Without the distinctness hypothesis the
fixed point fails too: duplicate normalized keys (which load_precios can
emit, see the C4 counterexample) make each run multiply the matching rows
again. -/
theorem claim_C2_amended_idempotent_costs (pt : List PrecioEntry)
    (ag : Option (List PrecioEntry)) (df : List TLine)
    (hpt : (pt.map (fun e => normalize_producto_for_match e.producto)).Nodup)
    (hag : ∀ t, ag = some t →
      (t.map (fun e => normalize_producto_for_match e.producto)).Nodup) :
    (apply_prices_table (apply_prices_table df pt ag) pt ag).map
        (fun l => (l.costoUnitario, l.costo, l.costoAfter))
      = (apply_prices_table df pt ag).map
        (fun l => (l.costoUnitario, l.costo, l.costoAfter)) := by
  rw [apply_prices_table_eq_map df pt ag hpt hag,
    apply_prices_table_eq_map (apply_prices df pt ag) pt ag hpt hag]
  exact apply_prices_cost_idem pt ag df

/-- C2 amended, witnessed at the duplicate-free one-product map C2pt and
the one-line table: the cost columns of the second run equal those of the
first. -/
theorem claim_C2_amended_idempotent_costs_witness :
    ((C2pt.map (fun e => normalize_producto_for_match e.producto)).Nodup)
    ∧ (apply_prices_table (apply_prices_table [C2line] C2pt none) C2pt none).map
          (fun l => (l.costoUnitario, l.costo, l.costoAfter))
        = (apply_prices_table [C2line] C2pt none).map
          (fun l => (l.costoUnitario, l.costo, l.costoAfter)) :=
  ⟨by decide,
   claim_C2_amended_idempotent_costs C2pt none [C2line] (by decide)
     (fun t ht => Option.noConfusion ht)⟩

/-- C3 counterexample: an unmatched line keeps its unit cost but does NOT
keep its original line cost — apply_prices recomputes Costo = Cantidad *
Costo unitario for every row, so a line whose recorded Costo 11 differs
from Cantidad * Costo unitario = 10 comes out with Costo 10. -/
theorem claim_C3_counterexample :
    pt_matched [] C3cex = false
    ∧ ag_matched none C3cex = false
    ∧ (applyPricesLine [] none C3cex).costo ≠ C3cex.costo := by
  refine ⟨rfl, rfl, ?_⟩
  rw [applyPricesLine_costo]
  have hu : (applyPricesLine [] none C3cex).costoUnitario = C3cex.costoUnitario := by
    rw [applyPricesLine_costoUnitario]
    rfl
  rw [hu]
  simp only [C3cex]
  norm_num

/-- C3 amended: a line matched by neither price source keeps its original
unit cost, gets its line cost recomputed as quantity times that original
unit cost (so the recorded line cost is preserved exactly when it already
equals quantity times unit cost), and its product is recorded in the
unmatched-products warning set. -/
theorem claim_C3_amended (pt : List PrecioEntry) (ag : Option (List PrecioEntry))
    (l : TLine) (hpt : pt_matched pt l = false) (hag : ag_matched ag l = false) :
    (applyPricesLine pt ag l).costoUnitario = l.costoUnitario
    ∧ (applyPricesLine pt ag l).costo = l.cantidad * l.costoUnitario
    ∧ ∀ df, l ∈ df → l.producto ∈ unmatchedProducts df pt ag := by
  have hu : (applyPricesLine pt ag l).costoUnitario = l.costoUnitario := by
    rw [applyPricesLine_costoUnitario]
    simp [hpt, hag]
  refine ⟨hu, ?_, ?_⟩
  · rw [applyPricesLine_costo, hu]
  · intro df hdf
    unfold unmatchedProducts
    apply mem_uniqueFirst.mpr
    refine List.mem_map.mpr ⟨l, List.mem_filter.mpr ⟨hdf, ?_⟩, rfl⟩
    simp [hpt, hag]

/-- C3 amended, witnessed at the concrete unmatched line C3cex. -/
theorem claim_C3_amended_witness :
    pt_matched [] C3cex = false ∧ ag_matched none C3cex = false
    ∧ ((applyPricesLine [] none C3cex).costoUnitario = C3cex.costoUnitario
       ∧ (applyPricesLine [] none C3cex).costo = C3cex.cantidad * C3cex.costoUnitario
       ∧ ∀ df, C3cex ∈ df → C3cex.producto ∈ unmatchedProducts df [] none) :=
  ⟨rfl, rfl, claim_C3_amended [] none C3cex rfl rfl⟩

/-- C5 counterexample: alias resolution is not a fallback.  With a PT map
holding BOTH the raw normalized key "mayones de panem *" (price 10) and its
alias target "mayonesa de panem *" (price 20), the line whose raw
normalized key is present in the map is nevertheless priced at the alias
price 20 of the alias target, not at the price 10 of the raw key. -/
theorem claim_C5_counterexample :
    findPrecio C5pt (normalize_producto_for_match C5line.producto) = some 10
    ∧ (applyPricesLine C5pt none C5line).costoUnitario = 20
    ∧ (20 : ℚ) ≠ 10 := by
  refine ⟨rfl, ?_, by norm_num⟩
  rw [applyPricesLine_costoUnitario]
  have h1 : ag_matched none C5line = false := rfl
  have h2 : pt_matched C5pt C5line = true := by decide
  have h3 : ptPrice C5pt C5line = some 20 := rfl
  simp [h1, h2, h3]

/-- C5 amended: the alias table is applied unconditionally before the
lookup — the merge key is always the alias-resolved normalized key, so
whenever the normalized name resolves to alias target a and the PT map
holds price q at a, a matched finished-goods line is priced q, regardless
of whether the raw normalized key is itself present in the map. -/
theorem claim_C5_amended (pt : List PrecioEntry) (ag : Option (List PrecioEntry))
    (l : TLine) (a : String)
    (halias : aliasGet (normalize_producto_for_match l.producto) = a)
    (horig : strContains (normOrigin l) "PRODUCTO TERMINADO" = true)
    (hag : ag_matched ag l = false) (q : ℚ)
    (hq : findPrecio pt a = some q) :
    (applyPricesLine pt ag l).costoUnitario = q := by
  have hpt : ptPrice pt l = some q := by
    unfold ptPrice lookupKey
    rw [halias, hq]
  have hm : pt_matched pt l = true := by
    unfold pt_matched
    rw [horig, hpt]
    rfl
  rw [applyPricesLine_costoUnitario]
  simp [hag, hm, hpt]

/-- C5 amended, witnessed at C5pt and C5line: the typo line resolves to the
alias target and is priced at the price 20 of that target. -/
theorem claim_C5_amended_witness :
    aliasGet (normalize_producto_for_match C5line.producto) = "mayonesa de panem *"
    ∧ strContains (normOrigin C5line) "PRODUCTO TERMINADO" = true
    ∧ ag_matched none C5line = false
    ∧ findPrecio C5pt "mayonesa de panem *" = some 20
    ∧ (applyPricesLine C5pt none C5line).costoUnitario = 20 :=
  ⟨rfl, rfl, rfl, rfl,
   claim_C5_amended C5pt none C5line "mayonesa de panem *" rfl rfl rfl 20 rfl⟩

/-- C8: compute_weekly_price_changes returns exactly the changed lines — its
output is a permutation (the source only reorders by a final sort) of one
derived row per line with before-cost different from after-cost, an input
with no changed line yields the empty frame (whose schema is the fixed
PriceChangeRow record), and every changed line contributes its derived row
with before-unit-cost Costo_before / Cantidad. -/
theorem claim_C8_change_detection (df : List TLine) :
    (compute_weekly_price_changes df).Perm
      ((df.filter (fun l => decide (l.costoBefore ≠ l.costoAfter))).map priceChangeRowOf)
    ∧ ((∀ l ∈ df, l.costoBefore = l.costoAfter) → compute_weekly_price_changes df = [])
    ∧ (∀ l ∈ df, l.costoBefore ≠ l.costoAfter →
        priceChangeRowOf l ∈ compute_weekly_price_changes df) := by
  have hperm : (compute_weekly_price_changes df).Perm
      ((df.filter (fun l => decide (l.costoBefore ≠ l.costoAfter))).map priceChangeRowOf) := by
    unfold compute_weekly_price_changes
    by_cases hdf : df.isEmpty
    · rw [if_pos hdf]
      rw [List.isEmpty_iff.mp hdf]
      simp
    · rw [if_neg hdf]
      by_cases hch : (df.filter (fun l => decide (l.costoBefore ≠ l.costoAfter))).isEmpty
      · rw [if_pos hch]
        rw [List.isEmpty_iff.mp hch]
        simp
      · rw [if_neg hch]
        exact List.mergeSort_perm _ _
  refine ⟨hperm, ?_, ?_⟩
  · intro hall
    have hfil : df.filter (fun l => decide (l.costoBefore ≠ l.costoAfter)) = [] := by
      apply List.filter_eq_nil_iff.mpr
      intro a ha
      simp [hall a ha]
    rw [hfil] at hperm
    simpa using hperm.eq_nil
  · intro l hl hne
    apply hperm.mem_iff.mpr
    exact List.mem_map.mpr ⟨l, List.mem_filter.mpr ⟨hl, by simpa using hne⟩, rfl⟩

/-- C8 witnessed at concrete tables: the changed line of C8wdf contributes
its derived row, and a table whose only line is unchanged yields the empty
output. -/
theorem claim_C8_change_detection_witness :
    priceChangeRowOf C8chLine ∈ compute_weekly_price_changes C8wdf
    ∧ compute_weekly_price_changes [C8unchLine] = [] :=
  ⟨(claim_C8_change_detection C8wdf).2.2 C8chLine (by decide) (by norm_num [C8chLine]),
   (claim_C8_change_detection [C8unchLine]).2.1 (by
      intro l hl
      simp only [List.mem_singleton] at hl
      subst hl
      norm_num [C8unchLine])⟩

/-
Sum lemmas for the CEDIS exclusion claim.
-/

theorem sumBy_filter_nonneg (f : TLine → ℚ) (p : TLine → Bool) (df : List TLine)
    (h : ∀ l ∈ df, 0 ≤ f l) : 0 ≤ sumBy f (df.filter p) := by
  induction df with
  | nil => simp [sumBy]
  | cons a t ih =>
    have ht := ih (fun l hl => h l (List.mem_cons_of_mem _ hl))
    have hfa := h a (List.mem_cons_self _ _)
    by_cases hp : p a = true
    · rw [List.filter_cons_of_pos hp]
      simp only [sumBy, List.map_cons, List.sum_cons]
      simp only [sumBy] at ht
      linarith
    · rw [List.filter_cons_of_neg (by simpa using hp)]
      exact ht

/-- The week total over the whole table splits into the week total over the
CEDIS-excluded table plus the week total of the CEDIS-destined lines. -/
theorem sumBy_cedis_split (f : TLine → ℚ) (df : List TLine) (w : String) :
    sumBy f (df.filter (fun l => l.week == w))
      = sumBy f ((df.filter (fun l => decide (l.sucursalDestino ≠ "Panem - CEDIS"))).filter
          (fun l => l.week == w))
        + sumBy f (df.filter (fun l => l.week == w && l.sucursalDestino == "Panem - CEDIS")) := by
  induction df with
  | nil => simp [sumBy]
  | cons a t ih =>
    simp only [sumBy] at ih ⊢
    by_cases hw : a.week = w <;> by_cases hc : a.sucursalDestino = "Panem - CEDIS" <;>
      simp [List.filter_cons, List.filter_filter, hw, hc] at ih ⊢ <;> linarith

theorem weekAggOf_totalAfter (work : List TLine) (w : String) :
    (weekAggOf work w).totalAfter
      = sumBy (fun l => l.costoAfter) (work.filter (fun l => l.week == w)) := rfl

/-- C9 amended: when every line cost is nonnegative, each weekly aggregate
computed with CEDIS exclusion has Total_After at most the Total_After of the
same week computed without exclusion, with equality exactly when the
hub-destined lines of that week have zero total Costo_after (in particular
when the week has no hub-destined lines; a negative-cost hub line breaks
the unrestricted inequality, and a zero-cost hub line breaks "equality only
when no hub lines exist"). -/
theorem claim_C9_amended (df : List TLine)
    (hpos : ∀ l ∈ df, 0 ≤ l.costoAfter) :
    ∀ e ∈ compute_weekly_cost_comparison df true,
      ∃ e2 ∈ compute_weekly_cost_comparison df false,
        e2.week = e.week
        ∧ e.totalAfter ≤ e2.totalAfter
        ∧ (e.totalAfter = e2.totalAfter ↔ cedisSum df e.week = 0) := by
  intro e he
  unfold compute_weekly_cost_comparison at he ⊢
  by_cases hdf : df.isEmpty
  · rw [if_pos hdf] at he
    simp at he
  · rw [if_neg hdf] at he
    rw [if_neg hdf]
    simp only [if_true, Bool.false_eq_true, if_false] at he ⊢
    obtain ⟨w, hwmem, rfl⟩ := List.mem_map.mp he
    have hw2 : w ∈ (df.filter
        (fun l => decide (l.sucursalDestino ≠ "Panem - CEDIS"))).map (fun l => l.week) :=
      mem_uniqueFirst.mp hwmem
    obtain ⟨l, hl, hlw⟩ := List.mem_map.mp hw2
    have hldf : l ∈ df := List.mem_of_mem_filter hl
    have hwdf : w ∈ uniqueFirst (df.map (fun l => l.week)) :=
      mem_uniqueFirst.mpr (List.mem_map.mpr ⟨l, hldf, hlw⟩)
    refine ⟨weekAggOf df w, List.mem_map.mpr ⟨w, hwdf, rfl⟩, rfl, ?_, ?_⟩
    · rw [weekAggOf_totalAfter, weekAggOf_totalAfter]
      have hsplit := sumBy_cedis_split (fun l => l.costoAfter) df w
      have hnn : 0 ≤ sumBy (fun l => l.costoAfter)
          (df.filter (fun l => l.week == w && l.sucursalDestino == "Panem - CEDIS")) :=
        sumBy_filter_nonneg _ _ df hpos
      linarith
    · have hwk : (weekAggOf (df.filter
          (fun l => decide (l.sucursalDestino ≠ "Panem - CEDIS"))) w).week = w := rfl
      rw [hwk, weekAggOf_totalAfter, weekAggOf_totalAfter]
      have hsplit := sumBy_cedis_split (fun l => l.costoAfter) df w
      have hnn : 0 ≤ sumBy (fun l => l.costoAfter)
          (df.filter (fun l => l.week == w && l.sucursalDestino == "Panem - CEDIS")) :=
        sumBy_filter_nonneg _ _ df hpos
      unfold cedisSum
      constructor
      · intro hEq
        linarith
      · intro h0
        linarith

/-- C9 counterexample: with a negative-cost hub line the claimed inequality
fails as stated — excluding the hub gives weekly Total_After 10 while
including it gives 9, so Total_After(excluded) > Total_After(included). -/
theorem claim_C9_counterexample :
    ((compute_weekly_cost_comparison C9df true).map (fun e => e.totalAfter) = [10])
    ∧ ((compute_weekly_cost_comparison C9df false).map (fun e => e.totalAfter) = [9])
    ∧ ¬ ((10 : ℚ) ≤ 9) := by
  refine ⟨?_, ?_, by norm_num⟩
  · unfold compute_weekly_cost_comparison
    rw [if_neg (by decide)]
    have hwork : C9df.filter (fun l => decide (l.sucursalDestino ≠ "Panem - CEDIS"))
        = [C9r1] := by decide
    simp only [if_true, hwork]
    have huniq : uniqueFirst ([C9r1].map (fun l => l.week))
        = ["2026-02-02_2026-02-08"] := by decide
    rw [huniq]
    simp only [List.map_cons, List.map_nil]
    have hfw : [C9r1].filter (fun l => l.week == "2026-02-02_2026-02-08") = [C9r1] := by
      decide
    rw [weekAggOf_totalAfter, hfw]
    norm_num [sumBy, C9r1]
  · unfold compute_weekly_cost_comparison
    rw [if_neg (by decide)]
    simp only [Bool.false_eq_true, if_false]
    have huniq : uniqueFirst (C9df.map (fun l => l.week))
        = ["2026-02-02_2026-02-08"] := by decide
    rw [huniq]
    simp only [List.map_cons, List.map_nil]
    have hfw : C9df.filter (fun l => l.week == "2026-02-02_2026-02-08") = C9df := by
      decide
    rw [weekAggOf_totalAfter, hfw]
    norm_num [sumBy, C9df, C9r1, C9r2]

/-- C9 amended, witnessed at the concrete nonnegative table C9wdf. -/
theorem claim_C9_amended_witness :
    (∀ l ∈ C9wdf, 0 ≤ l.costoAfter)
    ∧ (∀ e ∈ compute_weekly_cost_comparison C9wdf true,
        ∃ e2 ∈ compute_weekly_cost_comparison C9wdf false,
          e2.week = e.week
          ∧ e.totalAfter ≤ e2.totalAfter
          ∧ (e.totalAfter = e2.totalAfter ↔ cedisSum C9wdf e.week = 0)) :=
  ⟨by
    intro l hl
    simp only [C9wdf, List.mem_cons, List.not_mem_nil, or_false] at hl
    rcases hl with rfl | rfl <;> norm_num,
   claim_C9_amended C9wdf (by
    intro l hl
    simp only [C9wdf, List.mem_cons, List.not_mem_nil, or_false] at hl
    rcases hl with rfl | rfl <;> norm_num)⟩

end PosTransfers


